import Mathlib

/-!
Verification development for the nillion-demo repository (a Next.js medical
query demo).  The TypeScript sources under `src/frontend/src` are shallowly
embedded below: strings are `List Char`, fallible external HTTP calls are
oracle parameters of type `Except Unit _` supplied to the embedded handlers,
and JavaScript regular-expression scans are implemented as explicit
left-to-right scanners over character lists (fuel-based where convenient;
the fuel is always at least the length of the scanned text).
-/

set_option maxRecDepth 10000

/-- Characters that cannot be written literally under the project style rules. -/
def quoteChar : Char := Char.ofNat 34

/-- Backquote character, written by code point. -/
def backquoteChar : Char := Char.ofNat 96

/-- Convert a Lean string literal to the character-list representation used
throughout the embedding. -/
def chars (s : String) : List Char := s.data

namespace JS

/-- JavaScript `hay.includes(needle)` on strings (case-sensitive substring). -/
def includes (hay needle : List Char) : Bool :=
  match hay with
  | [] => needle.isEmpty
  | _ :: rest => needle.isPrefixOf hay || includes rest needle

/-- JavaScript `String.prototype.trim`: drop whitespace from both ends. -/
def trim (l : List Char) : List Char :=
  (((l.dropWhile Char.isWhitespace).reverse.dropWhile Char.isWhitespace).reverse)

/-- JavaScript `s.split(',')`: split at every comma, keeping empty pieces. -/
def splitComma : List Char → List (List Char)
  | [] => [[]]
  | c :: cs =>
    if c = ',' then [] :: splitComma cs
    else
      match splitComma cs with
      | [] => [[c]]
      | p :: ps => (c :: p) :: ps

/-- The composite `s.split(',').map(k => k.trim()).filter(k => k.length > 0)`
used both by the stage-1 keyword truncation and by the stage-2 keyword list
of `src/frontend/src/app/api/medical/query/route.ts`. -/
def splitTrimFilter (s : List Char) : List (List Char) :=
  ((splitComma s).map trim).filter (fun k => k ≠ [])

/-- JavaScript `arr.join(', ')`. -/
def joinCommaSpace : List (List Char) → List Char
  | [] => []
  | [x] => x
  | x :: y :: t => x ++ ',' :: ' ' :: joinCommaSpace (y :: t)

/-- JavaScript `arr.join(' ')`. -/
def joinSpace : List (List Char) → List Char
  | [] => []
  | [x] => x
  | x :: y :: t => x ++ ' ' :: joinSpace (y :: t)

/-- Find the first occurrence of `sep` in a string, returning the pieces
before and after it. -/
def splitFirst (sep : List Char) : List Char → Option (List Char × List Char)
  | [] => if sep = [] then some ([], []) else none
  | c :: rest =>
    if sep.isPrefixOf (c :: rest) then some ([], (c :: rest).drop sep.length)
    else
      match splitFirst sep rest with
      | some (p, q) => some (c :: p, q)
      | none => none

/-- JavaScript `s.split(sep)` for a non-empty string separator. -/
def splitOnStr (sep : List Char) : Nat → List Char → List (List Char)
  | 0, l => [l]
  | fuel + 1, l =>
    match splitFirst sep l with
    | none => [l]
    | some (p, q) => p :: splitOnStr sep fuel q

/-- JavaScript `s.replace(sep, repl)` with a string pattern: first occurrence
only. -/
def replaceFirst (hay sep repl : List Char) : List Char :=
  match splitFirst sep hay with
  | some (p, q) => p ++ repl ++ q
  | none => hay

/-- JavaScript `s.replace(/\*\*/g, '')`: delete every non-overlapping pair of
asterisks, scanning left to right. -/
def removeDoubleStars : List Char → List Char
  | '*' :: '*' :: rest => removeDoubleStars rest
  | c :: rest => c :: removeDoubleStars rest
  | [] => []

/-- JavaScript `s.split(/\s+/)`: split at maximal whitespace runs, keeping an
empty leading or trailing piece when the string starts or ends with
whitespace. -/
def splitWhitespaceRuns : Nat → List Char → List (List Char)
  | 0, l => [l]
  | fuel + 1, l =>
    let head := l.takeWhile (fun c => ¬ c.isWhitespace)
    let rest := l.dropWhile (fun c => ¬ c.isWhitespace)
    match rest with
    | [] => [head]
    | _ => head :: splitWhitespaceRuns fuel (rest.dropWhile Char.isWhitespace)

/-- JavaScript `arr.join(sep)` for an arbitrary separator. -/
def joinWith (sep : List Char) : List (List Char) → List Char
  | [] => []
  | [x] => x
  | x :: y :: t => x ++ sep ++ joinWith sep (y :: t)

/-- JavaScript `Set.prototype.add` on an insertion-ordered list model. -/
def setAdd (s : List (List Char)) (x : List Char) : List (List Char) :=
  if x ∈ s then s else s ++ [x]

/-- Fold `setAdd` over a list (models repeatedly adding matches to a `Set`). -/
def setAddAll (s : List (List Char)) (xs : List (List Char)) : List (List Char) :=
  xs.foldl setAdd s

/-- JavaScript word character class `\w` (used for `\b` boundaries). -/
def isWordChar (c : Char) : Bool := c.isAlphanum || c = '_'

/-- Case-insensitive test that the lowercase word `w` occurs at the start of
`l`. -/
def ciPrefixAt (w : List Char) (l : List Char) : Bool :=
  decide ((l.take w.length).map Char.toLower = w)

/-- Word-boundary test after a match of `w` at the start of `l`. -/
def boundaryAfter (w : List Char) (l : List Char) : Bool :=
  match l.drop w.length with
  | [] => true
  | d :: _ => ¬ isWordChar d

/-- Try the alternatives of a `\b(w1|w2|...)\b` regex at one position,
in alternation order, each with its own trailing-boundary check. -/
def firstWordAt (words : List (List Char)) (l : List Char) : Option (List Char) :=
  words.find? (fun w => ciPrefixAt w l && boundaryAfter w l)

/-- Left-to-right `matchAll` of a `\b(w1|w2|...)\b`-style regex with the `gi`
flags: `prevWord` records whether the previous character is a word character
(the leading `\b`); a match consumes its text.  Emits the (lowercase) matched
alternative. -/
def scanWords (words : List (List Char)) : Nat → Bool → List Char → List (List Char)
  | 0, _, _ => []
  | _, _, [] => []
  | fuel + 1, prevWord, c :: rest =>
    match (if prevWord then none else firstWordAt words (c :: rest)) with
    | some w => w :: scanWords words fuel true ((c :: rest).drop w.length)
    | none => scanWords words fuel (isWordChar c) rest

/-- First match only (a `\b(w1|w2|...)\b` regex without the `g` flag). -/
def firstWordScan (words : List (List Char)) : Nat → Bool → List Char → Option (List Char)
  | 0, _, _ => none
  | _, _, [] => none
  | fuel + 1, prevWord, c :: rest =>
    match (if prevWord then none else firstWordAt words (c :: rest)) with
    | some w => some w
    | none => firstWordScan words fuel (isWordChar c) rest

/-- Left-to-right `matchAll` of the quoted-phrase regex: a double quote, one
or more non-quote characters, a closing double quote; emits the captured
content of each match. -/
def quotedScan : Nat → List Char → List (List Char)
  | 0, _ => []
  | _, [] => []
  | fuel + 1, c :: rest =>
    if c = quoteChar then
      let content := rest.takeWhile (fun d => d ≠ quoteChar)
      match rest.drop content.length with
      | _ :: after =>
        if content ≠ [] then content :: quotedScan fuel after
        else quotedScan fuel rest
      | [] => []
    else quotedScan fuel rest

/-- JavaScript `parseInt` on a digit string. -/
def digitsVal (ds : List Char) : Nat :=
  ds.foldl (fun a c => a * 10 + (c.toNat - 48)) 0

/-- The suffix of the age regex after the captured digits: optional
whitespace, then one of `year`, `yr`, `y.o.`, `yo` (case-insensitively). -/
def ageSuffixOk (l : List Char) : Bool :=
  let r := (l.dropWhile Char.isWhitespace).map Char.toLower
  (chars "year").isPrefixOf r || (chars "yr").isPrefixOf r ||
    (chars "y.o.").isPrefixOf r || (chars "yo").isPrefixOf r

/-- First match of the age regex `(\d{2,3})\s*(?:year|yr|y\.o\.|yo)` with the
`i` flag: scan positions left to right; at each position try three digits,
then two. Returns the parsed captured digits. -/
def ageScan : Nat → List Char → Option Nat
  | 0, _ => none
  | _, [] => none
  | fuel + 1, c :: rest =>
    let l := c :: rest
    let ds := l.takeWhile Char.isDigit
    if 2 ≤ ds.length then
      if 3 ≤ ds.length && ageSuffixOk (l.drop 3) then some (digitsVal (l.take 3))
      else if ageSuffixOk (l.drop 2) then some (digitsVal (l.take 2))
      else ageScan fuel rest
    else ageScan fuel rest

end JS

namespace KeywordExtractor

/-!
Embedding of `src/frontend/src/lib/keyword-extractor.ts` (the companion
module of `pubmed.ts` exporting `extractSearchKeywords`).
-/

structure KeywordExtractionResult where
  keywords : List (List Char)
  primaryCondition : Option (List Char)
  searchQuery : List Char
  deriving Repr, DecidableEq

/-- Alternatives of the gender regex `\b(male|female|M|F)\b`. -/
def genderWords : List (List Char) :=
  [chars "male", chars "female", chars "m", chars "f"]

/-- Alternatives of the explicit-condition regex (the character class
`anem[ie]c` expands to `anemic`, `anemec`). -/
def conditionWords : List (List Char) :=
  [chars "anemia", chars "anemic", chars "anemec", chars "diabetes",
   chars "diabetic", chars "hypertension", chars "hypertensive",
   chars "leukemia", chars "infection", chars "deficiency",
   chars "disease", chars "syndrome"]

/-- Alternatives of the biomarker regex. -/
def biomarkerWords : List (List Char) :=
  [chars "hemoglobin", chars "hgb", chars "hematocrit", chars "hct",
   chars "wbc", chars "rbc", chars "platelet", chars "glucose",
   chars "cholesterol", chars "mcv", chars "mch"]

/-- Alternatives of the intervention-term regex in
`extractQuestionKeywords`. -/
def interventionWords : List (List Char) :=
  [chars "treatment", chars "therapy", chars "medication", chars "medicine",
   chars "drug", chars "supplement", chars "vitamin", chars "diet",
   chars "nutrition", chars "exercise", chars "intervention",
   chars "procedure", chars "earthing", chars "grounding",
   chars "acupuncture", chars "massage", chars "yoga"]

/-- The demographic (age and gender) steps of `extractMedicalConcepts`:
the set of concepts accumulated before the clinical-pattern checks. -/
def demographics (pdfText : List Char) : List (List Char) :=
  let s0 : List (List Char) := []
  let s1 :=
    match JS.ageScan (pdfText.length + 1) pdfText with
    | some age =>
      if 65 ≤ age then JS.setAdd (JS.setAdd s0 (chars "elderly")) (chars "geriatric")
      else if 18 ≤ age then JS.setAdd s0 (chars "adult")
      else JS.setAdd (JS.setAdd s0 (chars "pediatric")) (chars "children")
    | none => s0
  match JS.firstWordScan genderWords (pdfText.length + 1) false pdfText with
  | some g =>
    if g = chars "male" ∨ g = chars "m" then JS.setAdd s1 (chars "male")
    else if g = chars "female" ∨ g = chars "f" then JS.setAdd s1 (chars "female")
    else s1
  | none => s1

/-- `extractMedicalConcepts`: pattern-based concept extraction from a lab
report, accumulating into an insertion-ordered set. -/
def extractMedicalConcepts (pdfText : List Char) : List (List Char) :=
  let lower := pdfText.map Char.toLower
  let inc := fun (needle : String) => JS.includes lower (chars needle)
  let s2 := demographics pdfText
  let hasLowHemoglobin := (inc "hemoglobin" || inc "hgb") && inc "low"
  let hasLowHematocrit := (inc "hematocrit" || inc "hct") && inc "low"
  let hasLowRBC := inc "red blood cell" && inc "low"
  let s3 :=
    if hasLowHemoglobin || hasLowHematocrit || hasLowRBC then
      let t := JS.setAdd (JS.setAdd s2 (chars "anemia")) (chars "low hemoglobin")
      if inc "mcv" && inc "high" then
        JS.setAdd (JS.setAdd (JS.setAdd t (chars "macrocytic anemia"))
          (chars "vitamin b12 deficiency")) (chars "folate deficiency")
      else if inc "mcv" && inc "low" then
        JS.setAdd (JS.setAdd t (chars "microcytic anemia")) (chars "iron deficiency")
      else t
    else s2
  let s4 :=
    if inc "glucose" && (inc "high" || inc "elevated") then
      JS.setAdd (JS.setAdd s3 (chars "diabetes")) (chars "hyperglycemia")
    else s3
  let s5 :=
    if inc "wbc" && inc "high" then
      JS.setAdd (JS.setAdd s4 (chars "infection")) (chars "elevated wbc")
    else s4
  let s6 := JS.setAddAll s5 (JS.scanWords conditionWords (lower.length + 1) false lower)
  JS.setAddAll s6 (JS.scanWords biomarkerWords (lower.length + 1) false lower)

/-- `extractQuestionKeywords`: intervention terms and quoted phrases from the
user question, lowercased, in an insertion-ordered set. -/
def extractQuestionKeywords (question : List Char) : List (List Char) :=
  let s1 := JS.setAddAll []
    (JS.scanWords interventionWords (question.length + 1) false question)
  JS.setAddAll s1
    ((JS.quotedScan (question.length + 1) question).map (fun q => q.map Char.toLower))

/-- The condition priority order used to pick `primaryCondition`. -/
def conditionPriority : List (List Char) :=
  [chars "macrocytic anemia", chars "microcytic anemia", chars "anemia",
   chars "vitamin b12 deficiency", chars "folate deficiency",
   chars "iron deficiency", chars "diabetes", chars "infection",
   chars "leukemia"]

/-- The whitelist of treatment terms appended to the primary condition. -/
def treatmentTermList : List (List Char) :=
  [chars "treatment", chars "therapy", chars "management", chars "medicine",
   chars "drug", chars "intervention", chars "cure", chars "remedy"]

/-- `extractSearchKeywords`: build the PubMed search query from the optional
PDF text and the user question.  In the absolute-fallback branch the source
assigns a take-3 join and immediately overwrites it with the take-5 join;
only the final assignment is modelled. -/
def extractSearchKeywords (pdfText : Option (List Char)) (userQuestion : List Char) :
    KeywordExtractionResult :=
  let pdfConcepts :=
    match pdfText with
    | some t => extractMedicalConcepts t
    | none => []
  let questionKeywords := extractQuestionKeywords userQuestion
  let allKeywords := JS.setAddAll [] (pdfConcepts ++ questionKeywords)
  let primaryCondition :=
    conditionPriority.find? (fun term => allKeywords.any (fun k => JS.includes k term))
  let searchQuery :=
    match primaryCondition with
    | some pc =>
      let treatmentTerms := questionKeywords.filter (fun k => k ∈ treatmentTermList)
      if treatmentTerms ≠ [] then pc ++ ' ' :: JS.joinSpace treatmentTerms
      else
        let lq := userQuestion.map Char.toLower
        if JS.includes lq (chars "diagnos") || JS.includes lq (chars "treat") ||
            JS.includes lq (chars "management") then
          pc ++ chars " treatment management"
        else pc
    | none =>
      if allKeywords ≠ [] then JS.joinSpace (allKeywords.take 5)
      else
        let words := (JS.splitWhitespaceRuns (userQuestion.length + 1) userQuestion).filter
          (fun w => 4 < w.length)
        JS.joinSpace (words.take 5)
  { keywords := allKeywords, primaryCondition := primaryCondition,
    searchQuery := searchQuery }

end KeywordExtractor

namespace PubMed

/-!
Embedding of `src/frontend/src/lib/pubmed.ts`.  The HTTP layer is an oracle:
each external call is an `Except Unit (Bool × _)` giving either a thrown
error, or the response `ok` flag together with the decoded payload.  The
regex extraction of per-article XML fields (`extractTag` and the author
loop) is represented by an `XmlRec` per `<PubmedArticle>` block: its fields
are the strings those extractions produced (an absent tag yields the empty
string, exactly as `extractTag` returns `''`).
-/

/-- The per-article field-extraction results for one `<PubmedArticle>`
block: `pmid`, `title`, `abstract`, `journal`, `pubdate` from `extractTag`,
and the (`LastName`, `ForeName`) pair extracted from each `<Author>`
element. -/
structure XmlRec where
  pmid : List Char
  title : List Char
  abstract : List Char
  journal : List Char
  pubdate : List Char
  authorsRaw : List (List Char × List Char)
  deriving Repr, DecidableEq

structure PubMedArticle where
  pmid : List Char
  title : List Char
  abstract : List Char
  authors : List (List Char)
  journal : List Char
  pubdate : List Char
  deriving Repr, DecidableEq

/-- `parseArticlesFromXML`: per article block, build the author list from the
truthy last names, and emit a structured article only when both the PMID and
the title are non-empty; the abstract defaults when empty and the author
list is capped at three. -/
def parseArticlesFromXML (recs : List XmlRec) : List PubMedArticle :=
  recs.filterMap (fun r =>
    let authors := (r.authorsRaw.filter (fun a => a.1 ≠ [])).map
      (fun a => JS.trim (a.1 ++ ' ' :: a.2))
    if r.pmid ≠ [] ∧ r.title ≠ [] then
      some { pmid := r.pmid
             title := r.title
             abstract := if r.abstract = [] then chars "No abstract available" else r.abstract
             authors := authors.take 3
             journal := r.journal
             pubdate := r.pubdate }
    else none)

/-- `searchPubMed`: returns the PMID list of the search response; a thrown
fetch error or a non-ok status is caught and yields `[]`. -/
def searchPubMed (_query : List Char) (_maxResults : Nat)
    (orc : Except Unit (Bool × List (List Char))) : List (List Char) :=
  match orc with
  | .error _ => []
  | .ok (ok, idlist) => if ok then idlist else []

/-- `fetchPubMedArticles`: empty input short-circuits; a thrown fetch error
or a non-ok status is caught and yields `[]`; otherwise the XML body is
parsed. -/
def fetchPubMedArticles (pmids : List (List Char))
    (orc : Except Unit (Bool × List XmlRec)) : List PubMedArticle :=
  if pmids = [] then []
  else
    match orc with
    | .error _ => []
    | .ok (ok, recs) => if ok then parseArticlesFromXML recs else []

/-- `formatArticlesForPrompt` (string assembly; numbering uses `Nat.repr`). -/
def formatArticlesForPrompt (articles : List PubMedArticle) : List Char :=
  if articles.length = 0 then chars "No relevant medical literature found."
  else
    JS.joinSpace ((articles.enum.map (fun p =>
      let a := p.2
      let idx := p.1
      chars "[" ++ (Nat.repr (idx + 1)).data ++ chars "] " ++ a.title ++
        chars " Authors: " ++ JS.joinCommaSpace a.authors ++
        (if 3 ≤ a.authors.length then chars " et al." else []) ++
        chars " Journal: " ++ a.journal ++ chars " (" ++ a.pubdate ++
        chars ") PMID: " ++ a.pmid ++ chars " Abstract: " ++
        a.abstract.take 500 ++
        (if 500 < a.abstract.length then chars "..." else []))))

/-- A cited-article record `{pmid, title}` as used by the route. -/
structure Cited where
  pmid : List Char
  title : List Char
  deriving Repr, DecidableEq

structure PMContext where
  context : List Char
  articles : List Cited
  deriving Repr, DecidableEq

/-- The two oracle outcomes (esearch, efetch) consumed by one
`getPubMedContext` call. -/
structure KwOutcome where
  search : Except Unit (Bool × List (List Char))
  efetch : Except Unit (Bool × List XmlRec)
  deriving Repr

/-- `getPubMedContext`: search, then fetch details, then format; an empty
PMID list short-circuits with an empty article list. -/
def getPubMedContext (query : List Char) (maxResults : Nat) (orc : KwOutcome) :
    PMContext :=
  let pmids := searchPubMed query maxResults orc.search
  if pmids = [] then
    { context := chars "No relevant medical literature found for this query."
      articles := [] }
  else
    let articles := fetchPubMedArticles pmids orc.efetch
    { context := formatArticlesForPrompt articles
      articles := articles.map (fun a => { pmid := a.pmid, title := a.title }) }

/-- Whether the esearch call of one keyword failed (a thrown fetch or a
non-ok HTTP status: both are caught in `searchPubMed` and become `[]`). -/
def searchFailed (o : Except Unit (Bool × List (List Char))) : Bool :=
  match o with
  | .error _ => true
  | .ok (ok, _) => !ok

end PubMed

namespace MedicalQuery

/-!
Embedding of the current revision of the medical query endpoint,
`src/frontend/src/app/api/medical/query/route.ts`.  External HTTP calls are
oracles; the list of outbound calls the handler issues is returned in
`RouteResult.calls` and the audit-log POST bodies it issues in
`RouteResult.audits`.  The stage-1 keyword regexes
(`/Keywords to search:...\/i` and its two alternates) operate on the
LLM-produced analysis text, so their combined captured group is part of the
stage-1 oracle (`Stage1Res.kwCapture`); all processing of the capture is
modelled from the source.
-/

structure Env where
  nillionApiKey : Option (List Char)
  deriving Repr

/-- Truthiness of `process.env.NILLION_API_KEY`: absent or empty is falsy. -/
def envKeyFalsy (env : Env) : Bool :=
  match env.nillionApiKey with
  | none => true
  | some k => k = []

structure MetaIn where
  encryption_type : Option (List Char)
  deriving Repr

structure Req where
  query : List Char
  encryption_metadata : Option MetaIn
  session_id : List Char
  search_literature : Bool
  deriving Repr

/-- Outcome of the stage-1 chat-completions call: the HTTP `ok` flag, the
analysis text `data.choices[0].message.content`, and the captured group of
the first matching keyword regex over that text (`none` when no pattern
matched). -/
structure Stage1Res where
  ok : Bool
  content : List Char
  kwCapture : Option (List Char)
  deriving Repr

/-- Outcome of the final nilAI chat-completions call. -/
structure NilaiHttp where
  status : Nat
  ok : Bool
  content : List Char
  totalTokens : Option Nat
  deriving Repr

structure Orc where
  stage1 : Except Unit Stage1Res
  pubmed : List Char → PubMed.KwOutcome
  nilai : Except Unit NilaiHttp

inductive CallTag where
  | stage1
  | pubmedSearch (kw : List Char)
  | pubmedFetch (kw : List Char)
  | nilai (userContent : List Char)
  | audit
  deriving Repr, DecidableEq

structure AuditEntry where
  event_type : List Char
  user_id : List Char
  query_preview : List Char
  encryption_enabled : Bool
  model : List Char
  tee_verified : Bool
  response_length : Nat
  deriving Repr, DecidableEq

structure SuccessBody where
  encrypted_response : List Char
  cited_articles : List PubMed.Cited
  search_keywords : List Char
  initial_analysis : List Char
  deriving Repr, DecidableEq

inductive RespBody where
  | apiKeyError
  | nilaiError (status : Nat)
  | success (b : SuccessBody)
  | serverError
  deriving Repr, DecidableEq

structure RouteResult where
  status : Nat
  body : RespBody
  calls : List CallTag
  audits : List AuditEntry
  deriving Repr, DecidableEq

/-- Post-processing of the captured keyword group:
`.trim().replace(/\*\*\/g,'').replace(/[_\x60]/g,'').replace(/,$/,'')`. -/
def stripMarkdown (cap : List Char) : List Char :=
  let a := JS.trim cap
  let b := JS.removeDoubleStars a
  let c := b.filter (fun ch => ch ≠ '_' ∧ ch ≠ backquoteChar)
  match c.getLast? with
  | some ch => if ch = ',' then c.dropLast else c
  | none => c

/-- The parsed-branch `extractedKeywords`: strip markdown, split on commas,
and when more than four entries remain, keep the first four re-joined with
a comma and space. -/
def parsedKeywords (cap : List Char) : List Char :=
  let ek := stripMarkdown cap
  let arr := JS.splitTrimFilter ek
  if 4 < arr.length then JS.joinCommaSpace (arr.take 4) else ek

/-- The fallback branch: recover the document text and user question from
the combined query (when both markers are present and the split yields
exactly two parts) and run the intelligent extractor. -/
def fallbackExtractedKeywords (query : List Char) : List Char :=
  let hasDoc := JS.includes query (chars "Document Content:")
  let hasUQ := JS.includes query (chars "User Question:")
  let pq : Option (List Char) × List Char :=
    if hasDoc ∧ hasUQ then
      match JS.splitOnStr (chars "User Question:") (query.length + 1) query with
      | [a, b] =>
        (some (JS.trim (JS.replaceFirst a (chars "Document Content:") [])), JS.trim b)
      | _ => (none, query)
    else (none, query)
  (KeywordExtractor.extractSearchKeywords pq.1 pq.2).searchQuery

/-- The extraction stage (the `if (stage1Response.ok)` block): returns the
pair (initialAnalysis, extractedKeywords). -/
def extractionStage (query : List Char) (r : Stage1Res) : List Char × List Char :=
  if r.ok then
    match r.kwCapture with
    | some cap => (r.content, parsedKeywords cap)
    | none => (r.content, fallbackExtractedKeywords query)
  else ([], fallbackExtractedKeywords query)

/-- The stage-2 keyword list:
`extractedKeywords.split(',').map(k => k.trim()).filter(k => k.length > 0)`. -/
def stage2KeywordList (ek : List Char) : List (List Char) :=
  JS.splitTrimFilter ek

/-- JavaScript `Map.prototype.set` on an insertion-ordered association-list
model: replacing an existing key keeps its position. -/
def mapSet (m : List (List Char × PubMed.Cited)) (k : List Char) (v : PubMed.Cited) :
    List (List Char × PubMed.Cited) :=
  if k ∈ m.map Prod.fst then
    m.map (fun p => if p.1 = k then (k, v) else p)
  else m ++ [(k, v)]

/-- The stage-2 accumulation: for each keyword, fetch up to three articles
and write each into the article map keyed by its PMID. -/
def stage2Map (ks : List (List Char)) (orc : List Char → PubMed.KwOutcome) :
    List (List Char × PubMed.Cited) :=
  ks.foldl
    (fun m kw =>
      ((PubMed.getPubMedContext kw 3 (orc kw)).articles).foldl
        (fun m a => mapSet m a.pmid a) m)
    []

/-- `citedArticles = Array.from(articleMap.values()).slice(0, 5)`. -/
def citedArticlesOf (ks : List (List Char)) (orc : List Char → PubMed.KwOutcome) :
    List PubMed.Cited :=
  ((stage2Map ks orc).map Prod.snd).take 5

/-- The outbound PubMed calls stage 2 issues: one esearch per keyword, and
one efetch per keyword whose search produced a non-empty PMID list. -/
def stage2Calls (ks : List (List Char)) (orc : List Char → PubMed.KwOutcome) :
    List CallTag :=
  ks.foldr
    (fun kw acc =>
      CallTag.pubmedSearch kw ::
        (if PubMed.searchPubMed kw 3 (orc kw).search ≠ [] then
          [CallTag.pubmedFetch kw] else []) ++ acc)
    []

/-- The literature context built from the selected articles. -/
def buildLitContext (cited : List PubMed.Cited) : List Char :=
  JS.joinWith (chars "\n\n")
    (cited.enum.map (fun p =>
      chars "[" ++ (Nat.repr (p.1 + 1)).data ++ chars "] " ++ p.2.title ++
        chars "\nPMID: " ++ p.2.pmid))

/-- The RAG prompt sent to the final inference call when literature search
ran. -/
def ragPrompt (ia ctx query : List Char) : List Char :=
  chars "INITIAL ANALYSIS:\n" ++ ia ++
    chars "\n\nMEDICAL LITERATURE (Top 5 Articles):\n" ++ ctx ++
    chars "\n\n---\n\nORIGINAL QUERY:\n" ++ query ++
    chars "\n\nNow, based on the medical literature above, please provide a comprehensive treatment recommendation that:\n1. References the initial analysis\n2. Synthesizes findings from the research articles\n3. Provides specific, evidence-based recommendations\n4. Cites studies by PMID when relevant\n\nFormat your response clearly and cite specific studies."

/-- Truthiness of `encryption_metadata?.encryption_type`. -/
def metaTruthy (m : Option MetaIn) : Bool :=
  match m with
  | some mm =>
    match mm.encryption_type with
    | some s => s ≠ []
    | none => false
  | none => false

/-- The audit-log POST body issued after a successful inference call. -/
def mkAuditEntry (req : Req) (h : NilaiHttp) : AuditEntry :=
  { event_type := chars "medical_query"
    user_id := req.session_id
    query_preview := req.query.take 100
    encryption_enabled := metaTruthy req.encryption_metadata
    model := chars "google/gemma-3-27b-it"
    tee_verified := true
    response_length := h.content.length }

/-- The tail of the handler: the final nilAI call, the error passthrough on
a non-ok status, and on success the audit write and the JSON response.  The
audit fetch is inside its own try/catch in the source, so its failure never
alters the response; `audits` records the body the handler posts. -/
def finish (req : Req) (nilai : Except Unit NilaiHttp) (ia ek : List Char)
    (cited : List PubMed.Cited) (callsSoFar : List CallTag)
    (userContent : List Char) : RouteResult :=
  match nilai with
  | .error _ =>
    { status := 500, body := .serverError
      calls := callsSoFar ++ [.nilai userContent], audits := [] }
  | .ok h =>
    if h.ok then
      { status := 200
        body := .success
          { encrypted_response := h.content
            cited_articles := cited
            search_keywords := ek
            initial_analysis := ia }
        calls := callsSoFar ++ [.nilai userContent, .audit]
        audits := [mkAuditEntry req h] }
    else
      { status := h.status, body := .nilaiError h.status
        calls := callsSoFar ++ [.nilai userContent], audits := [] }

/-- The POST handler of `route.ts`.  A missing (or empty, hence falsy)
`NILLION_API_KEY` short-circuits with a 401 before any outbound call; a
thrown stage-1 fetch propagates to the outer catch (500). -/
def POST (env : Env) (req : Req) (orc : Orc) : RouteResult :=
  if envKeyFalsy env then
    { status := 401, body := .apiKeyError, calls := [], audits := [] }
  else
    if req.search_literature then
      match orc.stage1 with
      | .error _ =>
        { status := 500, body := .serverError, calls := [.stage1], audits := [] }
      | .ok r =>
        let ia := (extractionStage req.query r).1
        let ek := (extractionStage req.query r).2
        let kws := stage2KeywordList ek
        let cited := citedArticlesOf kws orc.pubmed
        let litCalls := stage2Calls kws orc.pubmed
        let ctx :=
          if 0 < cited.length then buildLitContext cited
          else chars "No relevant medical literature found."
        finish req orc.nilai ia ek cited (CallTag.stage1 :: litCalls)
          (ragPrompt ia ctx req.query)
    else
      finish req orc.nilai [] [] [] [] req.query

/-- Whether a route response is the success body (a completed query). -/
def isSuccess : RespBody → Bool
  | .success _ => true
  | _ => false

/-- Invariant of the article map: its PMID keys are pairwise distinct and
each stored article carries its own key as PMID. -/
def goodMap (m : List (List Char × PubMed.Cited)) : Prop :=
  (m.map Prod.fst).Nodup ∧ ∀ p ∈ m, p.2.pmid = p.1

end MedicalQuery

namespace LegacyQuery

/-!
Embedding of the earlier revision of the medical query endpoint kept in the
repository (`src/unnamed/part_008`): the upstream call is always issued,
with `'demo-key'` substituted for a falsy `NILLION_API_KEY`, and a non-ok
upstream response is answered with a mock demo response (HTTP 200).
-/

structure Req where
  query : List Char
  patient_id : List Char
  encrypted_data : Option (List Char)
  deriving Repr

/-- Outcome of the upstream chat-completions call. -/
structure Http where
  ok : Bool
  content : List Char
  deriving Repr

inductive Body where
  | mockResponse (query : List Char)
  | response (content : List Char)
  | serverError
  deriving Repr, DecidableEq

structure Result where
  status : Nat
  body : Body
  calls : List (List Char)
  deriving Repr, DecidableEq

/-- The Authorization header the legacy handler sends:
`Bearer ${process.env.NILLION_API_KEY || 'demo-key'}`. -/
def authHeaderUsed (env : MedicalQuery.Env) : List Char :=
  chars "Bearer " ++
    (match env.nillionApiKey with
     | some k => if k = [] then chars "demo-key" else k
     | none => chars "demo-key")

/-- The legacy POST handler: `calls` lists the Authorization headers of the
outbound requests it issued. -/
def POST (env : MedicalQuery.Env) (req : Req) (orc : Except Unit Http) : Result :=
  match orc with
  | .error _ =>
    { status := 500, body := .serverError, calls := [authHeaderUsed env] }
  | .ok h =>
    if h.ok then
      { status := 200, body := .response h.content, calls := [authHeaderUsed env] }
    else
      { status := 200, body := .mockResponse req.query, calls := [authHeaderUsed env] }

end LegacyQuery

namespace Attestation

/-!
Embedding of `src/frontend/src/app/api/attestation/proof/route.ts`.  The
upstream attestation fetch is an oracle `Except (List Char) (Nat × Bool ×
AttData)` (thrown message, or status/ok/decoded body); `Date.now` and
`Math.random` feed only the proof id and are passed in as rendered
strings.
-/

structure AttData where
  measurement : Option (List Char)
  deriving Repr

structure ChainEntry where
  level : List Char
  component : List Char
  status : List Char
  deriving Repr, DecidableEq

structure AttResponse where
  proof_id : List Char
  verified : Bool
  enclave_hash : List Char
  verification_status : List Char
  chain_of_trust : List ChainEntry
  errorMsg : Option (List Char)
  deriving Repr, DecidableEq

/-- The chain-of-trust array, identical in the success and fallback
responses. -/
def chainOfTrust : List ChainEntry :=
  [{ level := chars "Hardware", component := chars "AMD SEV-SNP Processor",
     status := chars "verified" },
   { level := chars "Firmware", component := chars "TEE Secure Boot",
     status := chars "verified" },
   { level := chars "Runtime", component := chars "Nillion nilAI Container",
     status := chars "verified" }]

/-- The hard-coded enclave hash of the fallback (demo) response. -/
def demoHash : List Char :=
  chars "a7f3c9e2d1b8f6a4e3c2d1b9f8e7d6c5b4a3f2e1d0c9b8a7f6e5d4c3b2a1f0"

/-- The fallback (demo) response returned from the catch block. -/
def fallbackResponse (randStr : List Char) (msg : List Char) : AttResponse :=
  { proof_id := chars "att_demo_" ++ randStr
    verified := true
    enclave_hash := demoHash
    verification_status := chars "DEMO_MODE"
    chain_of_trust := chainOfTrust
    errorMsg := some msg }

/-- The GET handler: a falsy key or a failed upstream fetch falls into the
catch block; otherwise the upstream body is echoed into the success
response.  In neither branch is any measurement or chain-of-trust entry
checked: the flags are constants. -/
def GET (env : MedicalQuery.Env) (orc : Except (List Char) (Nat × Bool × AttData))
    (nowStr randStr : List Char) : AttResponse :=
  if MedicalQuery.envKeyFalsy env then
    fallbackResponse randStr (chars "API key not configured")
  else
    match orc with
    | .error m => fallbackResponse randStr m
    | .ok (status, ok, d) =>
      if ok then
        { proof_id := chars "att_" ++ nowStr
          verified := true
          enclave_hash :=
            (match d.measurement with
             | some m => if m = [] then chars "nillion-tee-verified" else m
             | none => chars "nillion-tee-verified")
          verification_status := chars "VERIFIED"
          chain_of_trust := chainOfTrust
          errorMsg := none }
      else
        fallbackResponse randStr
          (chars "Attestation API error: " ++ (Nat.repr status).data)

end Attestation

namespace AuditSummary

/-!
Embedding of `src/frontend/src/app/api/audit/summary/route.ts`.  Log entries
carry an integer timestamp in milliseconds; `cutoffTime.setHours(getHours()
- hours)` shifts the current time by exactly `hours * 3600000` ms (modelled
for a fixed-offset timezone).  `Math.round` on the exact rational quotient
replaces the source's floating-point division.
-/

structure LogEntry where
  timestamp : Int
  encryption_enabled : Bool
  tee_verified : Bool
  user_id : List Char
  response_length : Option Nat
  model : Option (List Char)
  deriving Repr, DecidableEq

/-- JavaScript `Math.round`: floor of x + 1/2. -/
def jsMathRound (x : ℚ) : ℤ := ⌊x + (1 : ℚ) / 2⌋

structure Summary where
  period_hours : Int
  total_queries : Nat
  encrypted_queries : Nat
  tee_verified_queries : Nat
  unique_sessions : Nat
  encryption_rate : ℤ
  avg_response_length : ℤ
  model_usage : List (List Char × Nat)
  deriving Repr, DecidableEq

/-- Increment the per-model counter (a `Record<string, number>` model). -/
def bumpModel (mu : List (List Char × Nat)) (k : List Char) :
    List (List Char × Nat) :=
  if k ∈ mu.map Prod.fst then
    mu.map (fun p => if p.1 = k then (k, p.2 + 1) else p)
  else mu ++ [(k, 1)]

/-- The GET handler of the audit summary endpoint. -/
def GET (logs : List LogEntry) (now : Int) (hours : Int) : Summary :=
  let cutoff := now - hours * 3600000
  let recent := logs.filter (fun e => cutoff ≤ e.timestamp)
  let totalQueries := recent.length
  let encrypted := (recent.filter (fun e => e.encryption_enabled)).length
  let tee := (recent.filter (fun e => e.tee_verified)).length
  let unique := ((recent.map (fun e => e.user_id)).dedup).length
  let sumRL : Nat := recent.foldl (fun acc e => acc + e.response_length.getD 0) 0
  let avg : ℤ :=
    if 0 < recent.length then jsMathRound ((sumRL : ℚ) / (recent.length : ℚ))
    else 0
  let rate : ℤ :=
    if 0 < totalQueries then
      jsMathRound (((encrypted : ℚ) / (totalQueries : ℚ)) * 100)
    else 0
  let mu := recent.foldl (fun m e => bumpModel m (e.model.getD (chars "unknown"))) []
  { period_hours := hours
    total_queries := totalQueries
    encrypted_queries := encrypted
    tee_verified_queries := tee
    unique_sessions := unique
    encryption_rate := rate
    avg_response_length := avg
    model_usage := mu }

end AuditSummary

namespace Encryption

/-!
Embedding of the server-side-encryption revision of
`src/frontend/src/lib/encryption.ts` (the revision whose `encryptData`
comments say that actual encryption happens in API routes using
`@nillion/secretvaults`).  The `Date.now` timestamp that appears inside the
returned metadata is supplied as a parameter `ts`.
-/

structure Metadata where
  algorithm : List Char
  encryption_type : List Char
  mode : List Char
  timestamp : List Char
  size_bytes : Nat
  deriving Repr, DecidableEq

structure EncryptResult where
  encrypted : List Char
  metadata : Metadata
  deriving Repr, DecidableEq

/-- The server-side revision of `encryptData`: returns the plaintext unchanged
in the `encrypted` field, together with descriptive metadata. -/
def encryptData (plaintext : List Char) (ts : List Char) : EncryptResult :=
  { encrypted := plaintext
    metadata :=
      { algorithm := chars "server-side-encryption"
        encryption_type := chars "nillion-secretvaults"
        mode := chars "server-side"
        timestamp := ts
        size_bytes := plaintext.length } }

/-- The server-side revision of `decryptData`: returns its first argument
unchanged (the metadata argument is ignored by the source). -/
def decryptData (encryptedBase64 : List Char) (_metadata : Metadata) : List Char :=
  encryptedBase64

end Encryption

namespace Fixtures

/-- A well-formed XML article record (four authors, empty abstract). -/
def goodRec : PubMed.XmlRec :=
  { pmid := chars "12345", title := chars "Anemia management", abstract := []
    journal := chars "J", pubdate := chars "2024"
    authorsRaw := [(chars "Smith", chars "A"), ([], chars "B"),
                   (chars "Jones", chars "C"), (chars "Lee", chars "D")] }

/-- An XML article record with a PMID but no title (dropped by the parser). -/
def badRec : PubMed.XmlRec :=
  { pmid := chars "99999", title := [], abstract := chars "text"
    journal := chars "J", pubdate := chars "2024"
    authorsRaw := [] }

/-- A concrete audit-log entry used to exercise the summary endpoint. -/
def logA : AuditSummary.LogEntry :=
  { timestamp := 1000, encryption_enabled := true, tee_verified := true
    user_id := chars "s1", response_length := some 10, model := none }

/-- A stage-1-failed oracle for the medical query route. -/
def failedStage1 : MedicalQuery.Stage1Res :=
  { ok := false, content := [], kwCapture := none }

/-- A per-keyword PubMed oracle where the search for keyword `b` throws and
the others return one distinct article each. -/
def kwOracle : List Char → PubMed.KwOutcome := fun kw =>
  if kw = chars "b" then { search := .error (), efetch := .error () }
  else if kw = chars "a" then
    { search := .ok (true, [chars "1"])
      efetch := .ok (true,
        [{ pmid := chars "1", title := chars "TA", abstract := chars "x"
           journal := [], pubdate := [], authorsRaw := [] }]) }
  else
    { search := .ok (true, [chars "2"])
      efetch := .ok (true,
        [{ pmid := chars "2", title := chars "TC", abstract := chars "y"
           journal := [], pubdate := [], authorsRaw := [] }]) }

/-- A request with literature search disabled. -/
def plainReq : MedicalQuery.Req :=
  { query := chars "I have chest pain", encryption_metadata := none
    session_id := chars "sess", search_literature := false }

/-- An oracle set whose final inference call succeeds. -/
def okOrc : MedicalQuery.Orc :=
  { stage1 := .error ()
    pubmed := fun _ => { search := .error (), efetch := .error () }
    nilai := .ok { status := 200, ok := true, content := chars "ok!", totalTokens := none } }

/-- The query of the C2 counterexample: a question whose quoted phrase
contains commas. -/
def commaQuery : List Char := chars "Does \"a, b, c, d, e\" help?"

/-- The article the parser produces from `goodRec`. -/
def parsedGood : PubMed.PubMedArticle :=
  { pmid := chars "12345", title := chars "Anemia management"
    abstract := chars "No abstract available"
    authors := [chars "Smith A", chars "Jones C", chars "Lee D"]
    journal := chars "J", pubdate := chars "2024" }

/-- A lab-report fragment triggering the macrocytic-anemia patterns. -/
def cbcText : List Char := chars "Hemoglobin: 9.8 Low; MCV: 112 High"

end Fixtures

/-- C7: in the server-side-encryption revision of the encryption adapter,
`encryptData` returns the payload unchanged in its `encrypted` field and
`decryptData` returns the ciphertext argument unchanged: both operations are
the identity on the payload. -/
theorem c7_server_side_encryption_identity :
    ∀ (p ts : List Char) (c : List Char) (m : Encryption.Metadata),
      (Encryption.encryptData p ts).encrypted = p ∧
      Encryption.decryptData c m = c := by
  intro p ts c m
  exact ⟨rfl, rfl⟩

/-- C6: the attestation endpoint reports `verified = true` and an
all-"verified" chain of trust no matter whether the upstream fetch
succeeds, fails, or the credential is missing; the flags are constants and
no measurement is checked anywhere in the handler. -/
theorem c6_attestation_flags_constant :
    ∀ (env : MedicalQuery.Env) (orc : Except (List Char) (Nat × Bool × Attestation.AttData))
      (nowStr randStr : List Char),
      (Attestation.GET env orc nowStr randStr).verified = true ∧
      (Attestation.GET env orc nowStr randStr).chain_of_trust.map
          (fun e => e.status) = List.replicate 3 (chars "verified") := by
  intro env orc nowStr randStr
  unfold Attestation.GET
  rcases orc with m | ⟨st, ok, d⟩ <;>
    by_cases hk : MedicalQuery.envKeyFalsy env <;>
      simp [hk, Attestation.fallbackResponse, Attestation.chainOfTrust] <;>
        cases ok <;> simp [Attestation.fallbackResponse, Attestation.chainOfTrust]

/-- Summing `response_length || 0` with `reduce` equals the sum of the
mapped values. -/
theorem auditsum_foldl_eq_sum (l : List AuditSummary.LogEntry) :
    ∀ a : Nat,
      l.foldl (fun acc e => acc + e.response_length.getD 0) a
        = a + (l.map (fun e => e.response_length.getD 0)).sum := by
  induction l with
  | nil => intro a; simp
  | cons x xs ih => intro a; simp [ih, Nat.add_assoc]

/-- C9: for every hours parameter and stored log list, the summary's
`total_queries` is the number of entries inside the time window and
`avg_response_length` is the rounded arithmetic mean of their
`response_length` values (absent values counted as zero), zero when the
window is empty. -/
theorem c9_summary_total_and_average :
    ∀ (logs : List AuditSummary.LogEntry) (now h : Int),
      (AuditSummary.GET logs now h).total_queries
          = logs.countP (fun e => now - h * 3600000 ≤ e.timestamp) ∧
      (AuditSummary.GET logs now h).avg_response_length =
        (if logs.countP (fun e => now - h * 3600000 ≤ e.timestamp) = 0 then 0
         else
           round
             ((((logs.filter (fun e => now - h * 3600000 ≤ e.timestamp)).map
                  (fun e => ((e.response_length.getD 0 : ℕ) : ℚ))).sum)
               / ((logs.countP (fun e => now - h * 3600000 ≤ e.timestamp) : ℕ) : ℚ))) := by
  intro logs now h
  have hcount :
      logs.countP (fun e => now - h * 3600000 ≤ e.timestamp)
        = (logs.filter (fun e => now - h * 3600000 ≤ e.timestamp)).length :=
    List.countP_eq_length_filter _ _
  constructor
  · simp only [AuditSummary.GET]
    exact hcount.symm
  · simp only [AuditSummary.GET]
    rw [hcount]
    by_cases hzero : (logs.filter (fun e => now - h * 3600000 ≤ e.timestamp)).length = 0
    · rw [if_pos hzero, hzero]
      simp
    · have hpos : 0 < (logs.filter (fun e => now - h * 3600000 ≤ e.timestamp)).length :=
        Nat.pos_of_ne_zero hzero
      rw [if_neg hzero, if_pos hpos, AuditSummary.jsMathRound, round_eq]
      congr 2
      rw [auditsum_foldl_eq_sum _ 0, Nat.zero_add, Nat.cast_list_sum, List.map_map]
      rfl

/-- C10: every article emitted by the XML parser (and hence by
`fetchPubMedArticles`) has a non-empty PMID and title, a non-empty abstract
(defaulting when the tag was absent), and at most three authors; records
without a PMID or title are dropped. -/
theorem c10_parsed_article_invariants :
    ∀ (recs : List PubMed.XmlRec) (pmids : List (List Char))
      (orc : Except Unit (Bool × List PubMed.XmlRec)) (a : PubMed.PubMedArticle),
      (a ∈ PubMed.parseArticlesFromXML recs →
        a.pmid ≠ [] ∧ a.title ≠ [] ∧ a.abstract ≠ [] ∧ a.authors.length ≤ 3) ∧
      (a ∈ PubMed.fetchPubMedArticles pmids orc →
        a.pmid ≠ [] ∧ a.title ≠ [] ∧ a.abstract ≠ [] ∧ a.authors.length ≤ 3) := by
  intro recs pmids orc a
  have hparse : ∀ (rs : List PubMed.XmlRec),
      a ∈ PubMed.parseArticlesFromXML rs →
        a.pmid ≠ [] ∧ a.title ≠ [] ∧ a.abstract ≠ [] ∧ a.authors.length ≤ 3 := by
    intro rs hmem
    rw [PubMed.parseArticlesFromXML, List.mem_filterMap] at hmem
    obtain ⟨r, _, hr⟩ := hmem
    by_cases hguard : r.pmid ≠ [] ∧ r.title ≠ []
    · rw [if_pos hguard] at hr
      have ha := Option.some.inj hr
      subst ha
      refine ⟨hguard.1, hguard.2, ?_, ?_⟩
      · by_cases habs : r.abstract = [] <;> simp [habs, chars]
      · simpa [List.length_take] using min_le_left 3
          ((r.authorsRaw.filter (fun p => p.1 ≠ [])).map
            (fun p => JS.trim (p.1 ++ ' ' :: p.2))).length
    · rw [if_neg hguard] at hr
      exact absurd hr (by simp)
  exact ⟨hparse recs, by
    intro hm
    unfold PubMed.fetchPubMedArticles at hm
    by_cases hp : pmids = []
    · simp [hp] at hm
    · rw [if_neg hp] at hm
      cases orc with
      | error e => simp at hm
      | ok pr =>
        rcases pr with ⟨ok, rs⟩
        cases ok with
        | false => simp at hm
        | true => exact hparse rs (by simpa using hm)⟩

/-- Membership is preserved by adding another element to the set model. -/
theorem mem_setAdd_of_mem {s : List (List Char)} {x y : List Char}
    (h : x ∈ s) : x ∈ JS.setAdd s y := by
  unfold JS.setAdd
  split
  · exact h
  · exact List.mem_append_left _ h

/-- The element just added is a member of the set model. -/
theorem mem_setAdd_self (s : List (List Char)) (x : List Char) :
    x ∈ JS.setAdd s x := by
  unfold JS.setAdd
  split
  · assumption
  · exact List.mem_append_right _ (by simp)

/-- Membership is preserved by adding a whole batch to the set model. -/
theorem mem_setAddAll_of_mem {s : List (List Char)} {x : List Char}
    (h : x ∈ s) : ∀ l, x ∈ JS.setAddAll s l := by
  intro l
  induction l generalizing s with
  | nil => exact h
  | cons y ys ih => exact ih (mem_setAdd_of_mem h)

/-- Membership passes through a conditional that adds two more concepts. -/
theorem mem_condAdd2 {x a b : List Char} {s : List (List Char)} (c : Prop)
    [Decidable c] (h : x ∈ s) :
    x ∈ (if c then JS.setAdd (JS.setAdd s a) b else s) := by
  split
  · exact mem_setAdd_of_mem (mem_setAdd_of_mem h)
  · exact h

/-- C8: when the lowercase input contains both "hemoglobin" and "low" and
both "mcv" and "high", the concept extractor's output contains both
"anemia" and "macrocytic anemia". -/
theorem c8_anemia_concepts :
    ∀ text : List Char,
      JS.includes (text.map Char.toLower) (chars "hemoglobin") = true →
      JS.includes (text.map Char.toLower) (chars "low") = true →
      JS.includes (text.map Char.toLower) (chars "mcv") = true →
      JS.includes (text.map Char.toLower) (chars "high") = true →
      chars "anemia" ∈ KeywordExtractor.extractMedicalConcepts text ∧
      chars "macrocytic anemia" ∈ KeywordExtractor.extractMedicalConcepts text := by
  intro text h1 h2 h3 h4
  unfold KeywordExtractor.extractMedicalConcepts
  simp only [h1, h2, h3, h4, Bool.true_and, Bool.and_true, Bool.true_or,
    Bool.or_true, if_true]
  generalize KeywordExtractor.demographics text = s2
  constructor <;>
  · apply mem_setAddAll_of_mem
    apply mem_setAddAll_of_mem
    apply mem_condAdd2
    apply mem_condAdd2
    first
    | exact mem_setAdd_of_mem (mem_setAdd_of_mem (mem_setAdd_of_mem
        (mem_setAdd_of_mem (mem_setAdd_self _ _))))
    | exact mem_setAdd_of_mem (mem_setAdd_of_mem (mem_setAdd_self _ _))

/-- C1 (amended): in the current revision of the endpoint, a missing
`NILLION_API_KEY` makes the handler answer 401 with the descriptive
api-key-error body, with no outbound network call of any kind. -/
theorem c1_missing_key_hard_401 :
    ∀ (env : MedicalQuery.Env) (req : MedicalQuery.Req) (orc : MedicalQuery.Orc),
      env.nillionApiKey = none →
      (MedicalQuery.POST env req orc).status = 401 ∧
      (MedicalQuery.POST env req orc).body = .apiKeyError ∧
      (MedicalQuery.POST env req orc).calls = [] := by
  intro env req orc hk
  have hfalsy : MedicalQuery.envKeyFalsy env = true := by
    simp [MedicalQuery.envKeyFalsy, hk]
  refine ⟨?_, ?_, ?_⟩ <;> simp [MedicalQuery.POST, hfalsy]

/-- Witness for C1 (amended): a concrete run with no key configured. -/
theorem c1_missing_key_hard_401_witness :
    (MedicalQuery.Env.mk none).nillionApiKey = none ∧
    ((MedicalQuery.POST (MedicalQuery.Env.mk none) Fixtures.plainReq Fixtures.okOrc).status = 401 ∧
     (MedicalQuery.POST (MedicalQuery.Env.mk none) Fixtures.plainReq Fixtures.okOrc).body = .apiKeyError ∧
     (MedicalQuery.POST (MedicalQuery.Env.mk none) Fixtures.plainReq Fixtures.okOrc).calls = []) :=
  ⟨rfl, c1_missing_key_hard_401 (MedicalQuery.Env.mk none) Fixtures.plainReq Fixtures.okOrc rfl⟩

/-- Counterexample to C1 as stated: the legacy revision of the endpoint kept
in the repository, run with no `NILLION_API_KEY`, still issues the upstream
call (with the `demo-key` fallback credential) and, on its failure, answers
HTTP 200 with a mock demo response instead of a 401 error. -/
theorem c1_counterexample_legacy_mock :
    (LegacyQuery.POST (MedicalQuery.Env.mk none)
        (LegacyQuery.Req.mk (chars "q") (chars "p") none)
        (Except.ok (LegacyQuery.Http.mk false []))).status = 200 ∧
    (LegacyQuery.POST (MedicalQuery.Env.mk none)
        (LegacyQuery.Req.mk (chars "q") (chars "p") none)
        (Except.ok (LegacyQuery.Http.mk false []))).body
      = .mockResponse (chars "q") ∧
    (LegacyQuery.POST (MedicalQuery.Env.mk none)
        (LegacyQuery.Req.mk (chars "q") (chars "p") none)
        (Except.ok (LegacyQuery.Http.mk false []))).calls
      = [chars "Bearer demo-key"] := by
  refine ⟨rfl, rfl, ?_⟩
  decide

/-- The success-path audit behaviour of the tail of the handler. -/
theorem finish_audit_shape (req : MedicalQuery.Req)
    (nilai : Except Unit MedicalQuery.NilaiHttp) (ia ek : List Char)
    (cited : List PubMed.Cited) (callsSoFar : List MedicalQuery.CallTag)
    (userContent : List Char) :
    MedicalQuery.isSuccess
        (MedicalQuery.finish req nilai ia ek cited callsSoFar userContent).body = true →
      (MedicalQuery.finish req nilai ia ek cited callsSoFar userContent).audits.length = 1 ∧
      ∀ e ∈ (MedicalQuery.finish req nilai ia ek cited callsSoFar userContent).audits,
        e.query_preview = req.query.take 100 ∧ e.query_preview.length ≤ 100 := by
  cases nilai with
  | error e =>
    intro hs
    simp [MedicalQuery.finish, MedicalQuery.isSuccess] at hs
  | ok h =>
    by_cases hok : h.ok = true
    · intro _
      refine ⟨by simp [MedicalQuery.finish, hok], ?_⟩
      intro e he
      simp only [MedicalQuery.finish, hok, if_true, List.mem_singleton] at he
      subst he
      refine ⟨rfl, ?_⟩
      simpa [MedicalQuery.mkAuditEntry, List.length_take] using
        min_le_left 100 req.query.length
    · intro hs
      simp [MedicalQuery.finish, MedicalQuery.isSuccess, hok] at hs

/-- C4: every completed query (one whose response body is the success body)
appends exactly one audit entry, and that entry's `query_preview` is the
first 100 characters of the query, never more. -/
theorem c4_single_audit_bounded_preview :
    ∀ (env : MedicalQuery.Env) (req : MedicalQuery.Req) (orc : MedicalQuery.Orc),
      MedicalQuery.isSuccess (MedicalQuery.POST env req orc).body = true →
      (MedicalQuery.POST env req orc).audits.length = 1 ∧
      ∀ e ∈ (MedicalQuery.POST env req orc).audits,
        e.query_preview = req.query.take 100 ∧ e.query_preview.length ≤ 100 := by
  intro env req orc
  unfold MedicalQuery.POST
  split
  · intro hs; simp [MedicalQuery.isSuccess] at hs
  · split
    · split
      · intro hs; simp [MedicalQuery.isSuccess] at hs
      · exact finish_audit_shape req orc.nilai _ _ _ _ _
    · exact finish_audit_shape req orc.nilai _ _ _ _ _

/-- Witness for C4: a concrete completed query appends one audit entry with
the bounded preview. -/
theorem c4_single_audit_bounded_preview_witness :
    MedicalQuery.isSuccess
        (MedicalQuery.POST (MedicalQuery.Env.mk (some (chars "k")))
          Fixtures.plainReq Fixtures.okOrc).body = true ∧
    ((MedicalQuery.POST (MedicalQuery.Env.mk (some (chars "k")))
          Fixtures.plainReq Fixtures.okOrc).audits.length = 1 ∧
      ∀ e ∈ (MedicalQuery.POST (MedicalQuery.Env.mk (some (chars "k")))
          Fixtures.plainReq Fixtures.okOrc).audits,
        e.query_preview = Fixtures.plainReq.query.take 100 ∧
        e.query_preview.length ≤ 100) :=
  ⟨rfl, c4_single_audit_bounded_preview (MedicalQuery.Env.mk (some (chars "k")))
    Fixtures.plainReq Fixtures.okOrc rfl⟩

/-- Writing an article under its own PMID preserves the map invariant. -/
theorem goodMap_mapSet {m : List (List Char × PubMed.Cited)}
    (h : MedicalQuery.goodMap m) (a : PubMed.Cited) :
    MedicalQuery.goodMap (MedicalQuery.mapSet m a.pmid a) := by
  unfold MedicalQuery.mapSet
  split
  · refine ⟨?_, ?_⟩
    · have hkeys :
          (m.map (fun p => if p.1 = a.pmid then (a.pmid, a) else p)).map Prod.fst
            = m.map Prod.fst := by
        rw [List.map_map]
        apply List.map_congr_left
        intro p _
        by_cases hpk : p.1 = a.pmid <;> simp [hpk]
      rw [hkeys]
      exact h.1
    · intro p hp
      rw [List.mem_map] at hp
      obtain ⟨q, hq, rfl⟩ := hp
      by_cases hqk : q.1 = a.pmid <;> simp [hqk]
      exact h.2 q hq
  · next hnot =>
    refine ⟨?_, ?_⟩
    · rw [List.map_append]
      simp only [List.map_cons, List.map_nil]
      rw [List.nodup_append]
      exact ⟨h.1, List.nodup_singleton _, by
        intro x hx hmemx
        simp only [List.mem_singleton] at hmemx
        subst hmemx
        exact hnot hx⟩
    · intro p hp
      rcases List.mem_append.mp hp with hin | hsing
      · exact h.2 p hin
      · simp only [List.mem_singleton] at hsing
        subst hsing
        rfl

/-- Folding a batch of articles into the map preserves the invariant. -/
theorem goodMap_foldl_articles (articles : List PubMed.Cited) :
    ∀ m, MedicalQuery.goodMap m →
      MedicalQuery.goodMap
        (articles.foldl (fun m a => MedicalQuery.mapSet m a.pmid a) m) := by
  induction articles with
  | nil => intro m h; exact h
  | cons a rest ih => intro m h; exact ih _ (goodMap_mapSet h a)

/-- The stage-2 accumulation always satisfies the map invariant. -/
theorem goodMap_stage2Map (ks : List (List Char))
    (orc : List Char → PubMed.KwOutcome) :
    MedicalQuery.goodMap (MedicalQuery.stage2Map ks orc) := by
  unfold MedicalQuery.stage2Map
  have hgen : ∀ (l : List (List Char)) (m : List (List Char × PubMed.Cited)),
      MedicalQuery.goodMap m →
      MedicalQuery.goodMap
        (l.foldl
          (fun m kw =>
            ((PubMed.getPubMedContext kw 3 (orc kw)).articles).foldl
              (fun m a => MedicalQuery.mapSet m a.pmid a) m) m) := by
    intro l
    induction l with
    | nil => intro m h; exact h
    | cons kw rest ih =>
      intro m h
      exact ih _ (goodMap_foldl_articles _ m h)
  exact hgen ks [] ⟨List.nodup_nil, by intro p hp; cases hp⟩

/-- C3: the cited-article list returned by stage 2 never contains two
articles with the same PMID and never has more than five entries,
whatever the keyword list and the per-keyword search results. -/
theorem c3_cited_articles_dedup_capped :
    ∀ (ks : List (List Char)) (orc : List Char → PubMed.KwOutcome),
      ((MedicalQuery.citedArticlesOf ks orc).map (fun a => a.pmid)).Nodup ∧
      (MedicalQuery.citedArticlesOf ks orc).length ≤ 5 := by
  intro ks orc
  have hgood := goodMap_stage2Map ks orc
  constructor
  · unfold MedicalQuery.citedArticlesOf
    rw [← List.map_take, List.map_map]
    have hpm :
        List.map ((fun a => a.pmid) ∘ Prod.snd)
            (List.take 5 (MedicalQuery.stage2Map ks orc))
          = List.map Prod.fst (List.take 5 (MedicalQuery.stage2Map ks orc)) :=
      List.map_congr_left (fun p hp => hgood.2 p (List.mem_of_mem_take hp))
    rw [hpm, List.map_take]
    exact hgood.1.sublist (List.take_sublist _ _)
  · unfold MedicalQuery.citedArticlesOf
    simpa [List.length_take] using
      min_le_left 5 ((MedicalQuery.stage2Map ks orc).map Prod.snd).length

/-- A keyword whose search failed contributes no articles the overall flow:
`searchPubMed` catches the failure and returns `[]`, so the context has an
empty article list. -/
theorem articles_empty_of_failed (q : List Char) (o : PubMed.KwOutcome)
    (h : PubMed.searchFailed o.search = true) :
    (PubMed.getPubMedContext q 3 o).articles = [] := by
  unfold PubMed.getPubMedContext PubMed.searchPubMed
  cases hs : o.search with
  | error e => simp
  | ok pr =>
    rcases pr with ⟨ok, ids⟩
    cases ok with
    | false => simp
    | true =>
      rw [PubMed.searchFailed.eq_def, hs] at h
      simp at h

/-- Folds over the same list with pointwise-equal step functions agree. -/
theorem foldl_congr_fun {α β : Type} {f g : β → α → β} (l : List α)
    (h : ∀ m k, k ∈ l → f m k = g m k) : ∀ m, l.foldl f m = l.foldl g m := by
  induction l with
  | nil => intro m; rfl
  | cons x xs ih =>
    intro m
    rw [List.foldl_cons, List.foldl_cons, h m x (by simp)]
    exact ih (fun m k hk => h m k (List.mem_cons_of_mem _ hk)) _

/-- C5: replacing a failed keyword search by an empty successful one leaves
the cited-article list unchanged — the failure is absorbed, the remaining
keywords still contribute, and the cap of five still holds. -/
theorem c5_failed_keyword_skipped :
    ∀ (ks : List (List Char)) (orc : List Char → PubMed.KwOutcome) (k : List Char),
      PubMed.searchFailed (orc k).search = true →
      MedicalQuery.citedArticlesOf ks orc
          = MedicalQuery.citedArticlesOf ks
              (fun q =>
                if q = k then
                  PubMed.KwOutcome.mk (Except.ok (true, [])) (orc q).efetch
                else orc q) ∧
      (MedicalQuery.citedArticlesOf ks orc).length ≤ 5 := by
  intro ks orc k hfail
  constructor
  · unfold MedicalQuery.citedArticlesOf MedicalQuery.stage2Map
    congr 1
    apply congrArg
    apply foldl_congr_fun
    intro m kw _
    dsimp only
    by_cases hkw : kw = k
    · subst hkw
      rw [articles_empty_of_failed kw (orc kw) hfail]
      rw [if_pos rfl]
      have hempty :
          (PubMed.getPubMedContext kw 3
            (PubMed.KwOutcome.mk (Except.ok (true, [])) (orc kw).efetch)).articles
              = [] := rfl
      rw [hempty]
    · rw [if_neg hkw]
  · unfold MedicalQuery.citedArticlesOf
    simpa [List.length_take] using
      min_le_left 5 ((MedicalQuery.stage2Map ks orc).map Prod.snd).length

/-- Witness for C5: three keywords, the middle search throws, the cited
list still carries the two successful results. -/
theorem c5_failed_keyword_skipped_witness :
    PubMed.searchFailed (Fixtures.kwOracle (chars "b")).search = true ∧
    (MedicalQuery.citedArticlesOf [chars "a", chars "b", chars "c"] Fixtures.kwOracle
        = MedicalQuery.citedArticlesOf [chars "a", chars "b", chars "c"]
            (fun q =>
              if q = chars "b" then
                PubMed.KwOutcome.mk (Except.ok (true, []))
                  (Fixtures.kwOracle q).efetch
              else Fixtures.kwOracle q) ∧
      (MedicalQuery.citedArticlesOf [chars "a", chars "b", chars "c"]
          Fixtures.kwOracle).length ≤ 5) :=
  ⟨rfl, c5_failed_keyword_skipped [chars "a", chars "b", chars "c"]
    Fixtures.kwOracle (chars "b") rfl⟩

/-- `trim` in terms of Mathlib's `rdropWhile`. -/
theorem trim_eq_rdropWhile (l : List Char) :
    JS.trim l
      = List.rdropWhile Char.isWhitespace (List.dropWhile Char.isWhitespace l) := by
  simp [JS.trim, List.rdropWhile]

/-- `trim` is idempotent. -/
theorem trim_idem (l : List Char) : JS.trim (JS.trim l) = JS.trim l := by
  rw [trim_eq_rdropWhile, trim_eq_rdropWhile]
  have hdv :
      List.dropWhile Char.isWhitespace
          (List.rdropWhile Char.isWhitespace
            (List.dropWhile Char.isWhitespace l))
        = List.rdropWhile Char.isWhitespace
            (List.dropWhile Char.isWhitespace l) := by
    cases hv : List.rdropWhile Char.isWhitespace
        (List.dropWhile Char.isWhitespace l) with
    | nil => rfl
    | cons c rest =>
      have hpref := List.rdropWhile_prefix Char.isWhitespace
        (List.dropWhile Char.isWhitespace l)
      rw [hv] at hpref
      obtain ⟨t, ht⟩ := hpref
      have hu : List.dropWhile Char.isWhitespace l = c :: (rest ++ t) := by
        rw [← ht]; simp
      have hid := List.dropWhile_idempotent Char.isWhitespace l
      rw [hu, List.dropWhile_cons] at hid
      have hc : ¬ Char.isWhitespace c = true := by
        intro hcw
        rw [if_pos hcw] at hid
        have hlen := congrArg List.length hid
        have hle := (List.dropWhile_suffix
          (l := rest ++ t) Char.isWhitespace).sublist.length_le
        simp only [List.length_cons] at hlen
        omega
      rw [List.dropWhile_cons, if_neg hc]
  rw [hdv, List.rdropWhile_idempotent]

/-- Every element of a trimmed string is an element of the original. -/
theorem mem_trim_subset {x : Char} {l : List Char} (h : x ∈ JS.trim l) : x ∈ l := by
  rw [trim_eq_rdropWhile] at h
  have h1 := (List.rdropWhile_prefix Char.isWhitespace
    (List.dropWhile Char.isWhitespace l)).sublist.subset h
  exact (List.dropWhile_suffix Char.isWhitespace).sublist.subset h1

/-- Trimming ignores a leading whitespace character. -/
theorem trim_cons_ws {c : Char} (hc : Char.isWhitespace c = true) (l : List Char) :
    JS.trim (c :: l) = JS.trim l := by
  simp [JS.trim, List.dropWhile_cons, hc]

/-- `splitComma` never returns the empty list. -/
theorem splitComma_ne_nil (s : List Char) : JS.splitComma s ≠ [] := by
  induction s with
  | nil => simp [JS.splitComma]
  | cons c cs ih =>
    unfold JS.splitComma
    by_cases hc : c = ','
    · simp [hc]
    · rw [if_neg hc]
      cases hsc : JS.splitComma cs with
      | nil => exact absurd hsc ih
      | cons p ps => simp

/-- No piece produced by `splitComma` contains a comma. -/
theorem comma_not_mem_splitComma (s : List Char) :
    ∀ x ∈ JS.splitComma s, ',' ∉ x := by
  induction s with
  | nil =>
    intro x hx
    simp [JS.splitComma] at hx
    simp [hx]
  | cons c cs ih =>
    intro x hx
    unfold JS.splitComma at hx
    by_cases hc : c = ','
    · rw [if_pos hc] at hx
      rcases List.mem_cons.mp hx with rfl | hmem
      · simp
      · exact ih x hmem
    · rw [if_neg hc] at hx
      cases hsc : JS.splitComma cs with
      | nil => exact absurd hsc (splitComma_ne_nil cs)
      | cons p ps =>
        rw [hsc] at hx
        rcases List.mem_cons.mp hx with rfl | hmem
        · intro hmm
          rcases List.mem_cons.mp hmm with hceq | hp
          · exact hc hceq.symm
          · exact ih p (hsc ▸ List.mem_cons_self p ps) hp
        · exact ih x (hsc ▸ List.mem_cons_of_mem p hmem)

/-- A comma-free string is returned whole by `splitComma`. -/
theorem splitComma_no_comma (a : List Char) (h : ',' ∉ a) :
    JS.splitComma a = [a] := by
  induction a with
  | nil => rfl
  | cons c cs ih =>
    have hc : ¬ (c = ',') := by
      intro hh
      exact h (by rw [hh]; exact List.mem_cons_self _ _)
    have hcs := ih (fun hm => h (List.mem_cons_of_mem _ hm))
    unfold JS.splitComma
    rw [if_neg hc, hcs]

/-- Splitting at the comma after a comma-free piece peels it off. -/
theorem splitComma_append_comma (a rest : List Char) (h : ',' ∉ a) :
    JS.splitComma (a ++ ',' :: rest) = a :: JS.splitComma rest := by
  induction a with
  | nil => simp [JS.splitComma]
  | cons c cs ih =>
    have hc : ¬ (c = ',') := by
      intro hh
      exact h (by rw [hh]; exact List.mem_cons_self _ _)
    have hcs := ih (fun hm => h (List.mem_cons_of_mem _ hm))
    rw [List.cons_append, JS.splitComma.eq_2, if_neg hc, hcs]

/-- Every entry of the split-trim-filter pipeline is comma-free, already
trimmed, and non-empty. -/
theorem stf_elem_props (s : List Char) :
    ∀ x ∈ JS.splitTrimFilter s, ',' ∉ x ∧ JS.trim x = x ∧ x ≠ [] := by
  intro x hx
  unfold JS.splitTrimFilter at hx
  rw [List.mem_filter] at hx
  obtain ⟨hmap, hne⟩ := hx
  rw [List.mem_map] at hmap
  obtain ⟨y, hy, rfl⟩ := hmap
  refine ⟨?_, trim_idem y, by simpa using hne⟩
  intro hcm
  exact comma_not_mem_splitComma s y hy (mem_trim_subset hcm)

/-- A leading whitespace (non-comma) character does not change the
split-trim-filter result. -/
theorem stf_cons_ws {c : Char} (hws : Char.isWhitespace c = true)
    (hc : ¬ c = ',') (r : List Char) :
    JS.splitTrimFilter (c :: r) = JS.splitTrimFilter r := by
  unfold JS.splitTrimFilter
  cases hsc : JS.splitComma r with
  | nil => exact absurd hsc (splitComma_ne_nil r)
  | cons p ps =>
    rw [JS.splitComma.eq_2, if_neg hc, hsc]
    simp only [List.map_cons, trim_cons_ws hws]

/-- Splitting a comma-space join of trimmed, comma-free, non-empty pieces
recovers exactly those pieces. -/
theorem stf_joinCommaSpace (l : List (List Char))
    (hP : ∀ x ∈ l, ',' ∉ x ∧ JS.trim x = x ∧ x ≠ []) (hl : l ≠ []) :
    JS.splitTrimFilter (JS.joinCommaSpace l) = l := by
  induction l with
  | nil => exact absurd rfl hl
  | cons x xs ih =>
    obtain ⟨hc, ht, hn⟩ := hP x (List.mem_cons_self _ _)
    cases xs with
    | nil =>
      unfold JS.joinCommaSpace JS.splitTrimFilter
      rw [splitComma_no_comma x hc]
      simp [ht, hn]
    | cons y ys =>
      have hjoin : JS.joinCommaSpace (x :: y :: ys)
          = x ++ ',' :: ' ' :: JS.joinCommaSpace (y :: ys) := rfl
      have key : JS.splitTrimFilter (x ++ ',' :: ' ' :: JS.joinCommaSpace (y :: ys))
          = x :: JS.splitTrimFilter (' ' :: JS.joinCommaSpace (y :: ys)) := by
        unfold JS.splitTrimFilter
        rw [splitComma_append_comma _ _ hc]
        simp only [List.map_cons, ht]
        rw [List.filter_cons_of_pos (by simp [hn])]
      rw [hjoin, key, stf_cons_ws (by decide) (by decide)]
      rw [ih (fun z hz => hP z (List.mem_cons_of_mem _ hz)) (by simp)]

/-- C2 (amended): a keyword set parsed from the stage-1 model response is
truncated so that the stage-2 keyword list never has more than four
entries.  (The fallback extractor's output is not re-truncated; see the
counterexample.) -/
theorem c2_parsed_keywords_capped_at_four :
    ∀ cap : List Char,
      (MedicalQuery.stage2KeywordList (MedicalQuery.parsedKeywords cap)).length ≤ 4 := by
  intro cap
  unfold MedicalQuery.parsedKeywords MedicalQuery.stage2KeywordList
  by_cases hlen : 4 < (JS.splitTrimFilter (MedicalQuery.stripMarkdown cap)).length
  · rw [if_pos hlen]
    have hrec :
        JS.splitTrimFilter
            (JS.joinCommaSpace
              ((JS.splitTrimFilter (MedicalQuery.stripMarkdown cap)).take 4))
          = (JS.splitTrimFilter (MedicalQuery.stripMarkdown cap)).take 4 := by
      apply stf_joinCommaSpace
      · intro x hx
        exact stf_elem_props _ x (List.mem_of_mem_take hx)
      · intro hnil
        have hlt := congrArg List.length hnil
        rw [List.length_take] at hlt
        simp only [List.length_nil] at hlt
        omega
    rw [hrec]
    simpa [List.length_take] using min_le_left 4
      (JS.splitTrimFilter (MedicalQuery.stripMarkdown cap)).length
  · rw [if_neg hlen]
    omega

/-- Counterexample to C2 as stated: with stage 1 failed, the fallback
extractor on the query `Does "a, b, c, d, e" help?` produces the search
query `a, b, c, d, e` (one quoted phrase containing commas), which the
stage-2 comma split turns into five keyword entries — more than four are
used for the literature searches, with no truncation applied. -/
theorem c2_counterexample_fallback_not_truncated :
    (MedicalQuery.stage2KeywordList
        ((MedicalQuery.extractionStage Fixtures.commaQuery
          Fixtures.failedStage1).2)).length = 5 ∧
    4 < (MedicalQuery.stage2KeywordList
        ((MedicalQuery.extractionStage Fixtures.commaQuery
          Fixtures.failedStage1).2)).length := by
  constructor <;> decide

/-- Witness for C8: a concrete CBC fragment with low hemoglobin and high
MCV yields both anemia concepts. -/
theorem c8_anemia_concepts_witness :
    (JS.includes (Fixtures.cbcText.map Char.toLower) (chars "hemoglobin") = true ∧
     JS.includes (Fixtures.cbcText.map Char.toLower) (chars "low") = true ∧
     JS.includes (Fixtures.cbcText.map Char.toLower) (chars "mcv") = true ∧
     JS.includes (Fixtures.cbcText.map Char.toLower) (chars "high") = true) ∧
    (chars "anemia" ∈ KeywordExtractor.extractMedicalConcepts Fixtures.cbcText ∧
     chars "macrocytic anemia" ∈ KeywordExtractor.extractMedicalConcepts Fixtures.cbcText) :=
  ⟨⟨by decide, by decide, by decide, by decide⟩,
    c8_anemia_concepts Fixtures.cbcText (by decide) (by decide) (by decide) (by decide)⟩

/-- Witness for C10: in a batch with one complete record and one record
missing its title, the parsed output contains the good article and it
satisfies the invariants. -/
theorem c10_parsed_article_invariants_witness :
    Fixtures.parsedGood ∈ PubMed.parseArticlesFromXML [Fixtures.goodRec, Fixtures.badRec] ∧
    (Fixtures.parsedGood.pmid ≠ [] ∧ Fixtures.parsedGood.title ≠ [] ∧
     Fixtures.parsedGood.abstract ≠ [] ∧ Fixtures.parsedGood.authors.length ≤ 3) :=
  ⟨by decide,
    (c10_parsed_article_invariants [Fixtures.goodRec, Fixtures.badRec] []
      (Except.error ()) Fixtures.parsedGood).1 (by decide)⟩
